import Mathlib

/-!
# Verification of pyfilter core components

Shallow embedding of the pyfilter library (state-space models with
sequential Monte Carlo parameter inference) and proofs about it.

Log-weights in the source are torch float tensors whose entries can be
`-inf` (degenerate particles) or `nan` (produced by `-inf - -inf` during
max-shifting).  We model a float scalar by the type `Fl` below: a real
number, one of the two infinities, or `nan`, with the IEEE-754 semantics
of the operations the sources use (`max`, `-`, `exp`, `+`, `/`).
-/

namespace PyFilter

open Classical

/-- A floating-point scalar: a real, `±inf`, or `nan`. -/
inductive Fl where
  | neginf : Fl
  | posinf : Fl
  | nan : Fl
  | real (x : ℝ) : Fl

/-- IEEE maximum as used by `torch.max` reductions: `nan` is absorbing,
otherwise the usual order with `-inf` at the bottom and `+inf` at the top. -/
def fmax : Fl → Fl → Fl
  | .nan, _ => .nan
  | _, .nan => .nan
  | .posinf, _ => .posinf
  | _, .posinf => .posinf
  | .neginf, y => y
  | x, .neginf => x
  | .real a, .real b => .real (max a b)

/-- IEEE subtraction; `inf - inf` (same sign) is `nan`. -/
def fsub : Fl → Fl → Fl
  | .nan, _ => .nan
  | _, .nan => .nan
  | .real a, .real b => .real (a - b)
  | .posinf, .posinf => .nan
  | .neginf, .neginf => .nan
  | .posinf, _ => .posinf
  | .neginf, _ => .neginf
  | .real _, .posinf => .neginf
  | .real _, .neginf => .posinf

/-- IEEE exponential: `exp (-inf) = 0`, `exp nan = nan`. -/
noncomputable def fexp : Fl → Fl
  | .nan => .nan
  | .neginf => .real 0
  | .posinf => .posinf
  | .real a => .real (Real.exp a)

/-- IEEE addition; `inf + -inf` is `nan`. -/
def fadd : Fl → Fl → Fl
  | .nan, _ => .nan
  | _, .nan => .nan
  | .real a, .real b => .real (a + b)
  | .posinf, .neginf => .nan
  | .neginf, .posinf => .nan
  | .posinf, _ => .posinf
  | _, .posinf => .posinf
  | .neginf, _ => .neginf
  | _, .neginf => .neginf

/-- IEEE division; `x / 0` is a signed infinity (or `nan` for `0 / 0`),
`finite / inf = 0`, `inf / inf = nan`. -/
noncomputable def fdiv : Fl → Fl → Fl
  | .nan, _ => .nan
  | _, .nan => .nan
  | .real a, .real b =>
      if b = 0 then (if a = 0 then .nan else if 0 < a then .posinf else .neginf)
      else .real (a / b)
  | .real _, .posinf => .real 0
  | .real _, .neginf => .real 0
  | .posinf, .posinf => .nan
  | .posinf, .neginf => .nan
  | .neginf, .posinf => .nan
  | .neginf, .neginf => .nan
  | .posinf, .real b => if b < 0 then .neginf else .posinf
  | .neginf, .real b => if b < 0 then .posinf else .neginf

/-- `normalized[torch.isnan(normalized)] = 0`: replace `nan` entries by `0`. -/
def zeronan : Fl → Fl
  | .nan => .real 0
  | x => x

/-- Sum of a list of floats (`tensor.sum()`). -/
def flSum (l : List Fl) : Fl := l.foldr fadd (.real 0)

/-- Maximum of a list of floats (`tensor.max()`), folded from `-inf`. -/
def flListMax (l : List Fl) : Fl := l.foldl fmax .neginf

/-- Coercion of a float scalar to a real number, mapping the non-real
values to `0`; used where the sources multiply normalized weights (proven
real) into real-valued arithmetic. -/
def flToReal : Fl → ℝ
  | .real x => x
  | _ => 0

/-- An entry of a log-weight tensor that is an actual log-weight: a real
number or `-inf`, not `nan` and not `+inf`. -/
def flClean (x : Fl) : Prop := x = Fl.neginf ∨ ∃ a : ℝ, x = Fl.real a

/-- `_vector` from `pyfilter/utils/normalization.py`: normalizes a 1-D
array of log weights.  Exponentiates the max-shifted weights, divides by
their sum, zeroes `nan` entries, and falls back to the uniform vector when
the result sums to zero.  (Named `vector_norm` because a Lean declaration
cannot start with an underscore.) -/
noncomputable def vector_norm (w : List Fl) : List Fl :=
  let m := flListMax w
  let reweighed := w.map fun x => fexp (fsub x m)
  let s := flSum reweighed
  let normalized := (reweighed.map fun x => fdiv x s).map zeronan
  if flSum normalized = Fl.real 0 then
    List.replicate w.length (Fl.real (1 / (w.length : ℝ)))
  else normalized

/-- `_matrix` from `pyfilter/utils/normalization.py`: normalizes a 2-D
array of log weights along the second axis; all tensor operations are
row-independent (`max(-1)`, `sum(-1)`, the row mask), so the embedding
maps the row computation over the rows. -/
noncomputable def matrix_norm (w : List (List Fl)) : List (List Fl) :=
  w.map fun row =>
    let m := flListMax row
    let reweighed := row.map fun x => fexp (fsub x m)
    let s := flSum reweighed
    let normalized := (reweighed.map fun x => fdiv x s).map zeronan
    if flSum normalized = Fl.real 0 then
      List.replicate row.length (Fl.real (1 / (row.length : ℝ)))
    else normalized

/-- A 1-D or 2-D tensor of log weights. -/
inductive Tens where
  | vec (v : List Fl) : Tens
  | mat (m : List (List Fl)) : Tens

/-- `normalize` from `pyfilter/utils/normalization.py`: dispatches on the
dimension (`w.dim() > 1`). -/
noncomputable def normalize : Tens → Tens
  | .vec v => .vec (vector_norm v)
  | .mat m => .mat (matrix_norm m)

/-- Modelled from the spec: `get_ess` lives in `pyfilter/utils/utils.py`,
which is absent from the sources.  The spec (glossary and 4.7) defines the
effective sample size as `1 / ∑ ŵᵢ²` where `ŵ = normalize(log_w)`. -/
noncomputable def get_ess (w : List Fl) : ℝ :=
  1 / (((vector_norm w).map flToReal).map (fun a => a ^ 2)).sum

/-! ## One-dimensional process (`pyfilter/timeseries/base.py`) -/

/-- A 1-D `BaseModel`: the transition mean `f` and scale `g` (taking the
state and the tuple of parameter values, as in `self.f(x, *theta_vals)`),
the parameter values, and the noise distribution represented by its
log-density `noise.log_prob`. -/
structure Proc1D where
  f : ℝ → List ℝ → ℝ
  g : ℝ → List ℝ → ℝ
  theta_vals : List ℝ
  noiseLogProb : ℝ → ℝ

/-- `BaseModel.mean`: `self.f(x, *self.theta_vals)`. -/
def pmean (m : Proc1D) (x : ℝ) : ℝ := m.f x m.theta_vals

/-- `BaseModel.scale`: `self.g(x, *self.theta_vals)`. -/
def pscale (m : Proc1D) (x : ℝ) : ℝ := m.g x m.theta_vals

/-- `BaseModel.weight` in the 1-D branch (`ndim < 2`):
`self.noise.log_prob((y - loc) / scale)`. -/
noncomputable def weight (m : Proc1D) (y x : ℝ) : ℝ :=
  m.noiseLogProb ((y - pmean m x) / pscale m x)

/-- `Normal.logpdf` from `pyfilter/distributions/continuous.py`:
`-log(2·π·s)/2 - (x-m)²/2/s` with `s = scale²`. -/
noncomputable def normal_logpdf (x loc scale : ℝ) : ℝ :=
  -Real.log (2 * Real.pi * scale ^ 2) / 2 - (x - loc) ^ 2 / 2 / scale ^ 2

/-- The standard normal log-density (`torch.distributions.Normal(0,1).log_prob`,
which agrees with `normal_logpdf · 0 1`). -/
noncomputable def stdnormal_logprob (x : ℝ) : ℝ := normal_logpdf x 0 1

/-- The model used to exhibit the missing Jacobian term in `weight`:
transition mean `f(x) = x`, constant scale `g(x) = 2`, standard normal
noise. -/
noncomputable def scaleTwoModel : Proc1D :=
  { f := fun x _ => x
    g := fun _ _ => 2
    theta_vals := []
    noiseLogProb := stdnormal_logprob }

/-! ## Optimal linear-Gaussian proposal (`pyfilter/proposals/linear.py`) -/

/-- The pieces of a 1-D `LinearGaussianObservations` model that
`LinearGaussianObservations.draw` reads: `hidden.mean`, `hidden.scale`,
`observable.theta_vals[0]` and `observable.scale`. -/
structure LinGauss1D where
  hmean : ℝ → ℝ
  hscale : ℝ → ℝ
  oc : ℝ
  oscale : ℝ → ℝ

/-- `LinearGaussianObservations._kernel_1d`: returns the parameters
`(m, cov.sqrt())` of the proposal kernel `Normal(m, cov.sqrt())`
with `cov = 1/(h_var_inv + c²·o_var_inv)` and
`m = cov·(h_var_inv·loc + c·o_var_inv·y)`. -/
noncomputable def kernel_1d (y loc h_var_inv o_var_inv c : ℝ) : ℝ × ℝ :=
  let cov := 1 / (h_var_inv + c ^ 2 * o_var_inv)
  let m := cov * (h_var_inv * loc + c * o_var_inv * y)
  (m, Real.sqrt cov)

/-- `LinearGaussianObservations.draw` in the 1-D branch: builds the kernel
from `loc = hidden.mean(x)`, `h_var_inv = 1/hidden.scale(x)²`,
`c = observable.theta_vals[0]`, `o_var_inv = 1/observable.scale(x)²`.
The stochastic `kernel.sample()` is abstracted: the embedding returns the
mean and standard deviation of the sampling distribution. -/
noncomputable def lgoDraw (mdl : LinGauss1D) (y x : ℝ) : ℝ × ℝ :=
  kernel_1d y (mdl.hmean x) (1 / mdl.hscale x ^ 2) (1 / mdl.oscale x ^ 2) mdl.oc

/-- A concrete linear-Gaussian model used in witnesses: random-walk
hidden mean, hidden scale 1, observation coefficient 3, observation
scale 2. -/
noncomputable def lgConcrete : LinGauss1D :=
  { hmean := fun x => x, hscale := fun _ => 1, oc := 3, oscale := fun _ => 2 }

/-! ## Distribution value setter (`pyfilter/distributions/continuous.py`) -/

/-- A Python value held by `Distribution._values`: an int, a float, or an
ndarray (the `isinstance(x, type(self._values))` check distinguishes the
three). -/
inductive PyVal where
  | int (i : ℤ) : PyVal
  | float (x : ℝ) : PyVal
  | arr (l : List ℝ) : PyVal

/-- Python-level failures surfaced by the embedded code. -/
inductive PyError where
  | assertionError : PyError
  | attributeError : PyError
deriving DecidableEq

/-- `isinstance(x, type(v))` for the three value kinds. -/
def sameType : PyVal → PyVal → Prop
  | .int _, .int _ => True
  | .float _, .float _ => True
  | .arr _, .arr _ => True
  | _, _ => False

/-- The minimum of an array (`x.min()`); the setter only reaches it on
ndarray values. -/
noncomputable def arrMin : List ℝ → ℝ
  | [] => 0
  | h :: t => t.foldl min h

/-- The maximum of an array (`x.max()`). -/
noncomputable def arrMax : List ℝ → ℝ
  | [] => 0
  | h :: t => t.foldl max h

/-- The state a `Distribution` carries for its `values` property: the
bounds of its support (`self.bounds()`, here for distributions with real
bounds such as `Beta` or `Uniform`) and the currently stored value
(`self._values`, initially `None`). -/
structure DistState where
  lo : ℝ
  hi : ℝ
  values : Option PyVal

/-- The `values` setter of `Distribution`
(`pyfilter/distributions/continuous.py` lines 42-67): when `_values` is
`None` the new value is stored with no check at all; otherwise the type,
the shape (for ndarrays) and the bounds are asserted before storing. -/
noncomputable def setValues (s : DistState) (x : PyVal) : Except PyError DistState :=
  match s.values with
  | none => .ok { s with values := some x }
  | some v =>
      if sameType v x then
        match x, v with
        | .arr l, .arr lv =>
            if lv.length = l.length then
              if s.lo ≤ arrMin l ∧ arrMax l ≤ s.hi then .ok { s with values := some x }
              else .error .assertionError
            else .error .assertionError
        | .float a, _ =>
            if s.lo ≤ a ∧ a ≤ s.hi then .ok { s with values := some x }
            else .error .assertionError
        | .int a, _ =>
            if s.lo ≤ (a : ℝ) ∧ (a : ℝ) ≤ s.hi then .ok { s with values := some x }
            else .error .assertionError
        | _, _ => .error .assertionError
      else .error .assertionError

/-! ## Parameters and the `theta` generator (`pyfilter/timeseries/base.py`) -/

/-- Modelled from the spec: the `Parameter` class
(`pyfilter/timeseries/parameter.py`) is absent from the sources.  Spec 4.2
gives its operations; here a parameter carries its natural `value`, its
prior log-density `log_prior` (called `logpdf` as in
`u.logpdf(u.values)`), and whether it is `trainable`. -/
structure Param where
  value : ℝ
  logpdf : ℝ → ℝ
  trainable : Bool

/-- `BaseModel.__init__` stores
`self._theta = (Parameter(th) for th in theta)` — a generator expression,
not a tuple.  A generator is a one-shot iterator: it is modelled by the
underlying list of parameters together with a consumption position.
Iterating yields the items from the position onward and leaves the
generator exhausted. -/
structure ThetaGen where
  items : List Param
  pos : ℕ

/-- Iterating the object returned by the `theta` property (a `for` loop
over the stored generator): yields the remaining items and exhausts the
generator. -/
def thetaIter (g : ThetaGen) : List Param × ThetaGen :=
  (g.items.drop g.pos, { g with pos := g.items.length })

/-- `BaseModel.p_map`: iterates `self.theta`, applies `func` to the
parameters that are distributions (trainable parameters; the
`isinstance(p, Distribution)` test is modelled by the `trainable` flag
since `Parameter` is spec-modelled) and, per the function's docstring,
contributes the current value for the others. -/
def p_map (func : Param → ℝ) (g : ThetaGen) : List ℝ × ThetaGen :=
  let l := thetaIter g
  (l.1.map (fun p => if p.trainable then func p else p.value), l.2)

/-- `BaseModel.p_prior`:
`sum(self.p_map(lambda u: u.logpdf(u.values)))`. -/
noncomputable def p_prior (g : ThetaGen) : ℝ × ThetaGen :=
  let l := p_map (fun p => p.logpdf p.value) g
  (l.1.sum, l.2)

/-- A trainable parameter whose prior log-density is constantly `7`. -/
def constSevenParam : Param := { value := 0, logpdf := fun _ => 7, trainable := true }

/-- The `_theta` generator of a freshly constructed model with a single
trainable parameter. -/
def thetaGen0 : ThetaGen := { items := [constSevenParam], pos := 0 }

/-! ## NESS jitter kernels (`pyfilter/algorithms/ness.py`) -/

/-- Pointwise combination of three lists (torch broadcasting over
elementwise tensor expressions). -/
def zipWith3 (f : α → β → γ → δ) : List α → List β → List γ → List δ
  | a :: as, b :: bs, c :: cs => f a b c :: zipWith3 f as bs cs
  | _, _, _ => []

/-- `disc_jitter` from `pyfilter/algorithms/ness.py`.  `tvals` is
`parameter.t_values` (the transformed values across the `M` outer
particles, flattened from shape `(M,1)`), `w` the outer log-weights,
`ind` the sampled Bernoulli indicators `i`, and `ξ` the standard normal
draws so that `Normal(means, std).sample() = means + std·ξ` elementwise
(the per-particle mean `a·θ + (1-a)·θ̄` is inlined into the elementwise
combination).  Note the scalar `std` is
`h * sqrt(((transformed - weighted_mean)**2).mean())` — an unweighted
mean of squared deviations. -/
noncomputable def disc_jitter (tvals : List ℝ) (w : List Fl) (h : ℝ)
    (ind : List ℝ) (ξ : List ℝ) : List ℝ :=
  let normalized := (vector_norm w).map flToReal
  let weighted_mean := (List.zipWith (fun t n => t * n) tvals normalized).sum
  let a := Real.sqrt (1 - h ^ 2)
  let std := h * Real.sqrt ((tvals.map (fun t => (t - weighted_mean) ^ 2)).sum
      / (tvals.length : ℝ))
  zipWith3 (fun t i z =>
      (1 - i) * t + i * ((a * t + (1 - a) * weighted_mean) + std * z))
    tvals ind ξ

/-- The discrete shrinkage kernel as the spec words it (4.10): `θ' =
(1−I)·θ + I·𝒩(a·θ + (1−a)·θ̄, h²·Var(θ))` where `θ̄` **and** `Var(θ)` are
weight-normalized statistics; written independently of `disc_jitter` for
refinement comparison. -/
noncomputable def disc_jitter_spec (tvals : List ℝ) (w : List Fl) (h : ℝ)
    (ind : List ℝ) (ξ : List ℝ) : List ℝ :=
  let normalized := (vector_norm w).map flToReal
  let wmean := (List.zipWith (fun t n => t * n) tvals normalized).sum
  let a := Real.sqrt (1 - h ^ 2)
  let wvar := (List.zipWith (fun t n => n * (t - wmean) ^ 2) tvals normalized).sum
  zipWith3 (fun t i z =>
      (1 - i) * t + i * ((a * t + (1 - a) * wmean) + h * Real.sqrt wvar * z))
    tvals ind ξ

/-- The weight-normalized mean `θ̄` of the parameter particles,
`(transformed * normalize(w)[..., None]).sum(0)`. -/
noncomputable def weightedMean (tvals : List ℝ) (w : List Fl) : ℝ :=
  (List.zipWith (fun t n => t * n) tvals ((vector_norm w).map flToReal)).sum

/-- The unweighted average of squared deviations from the weighted mean,
`((transformed - weighted_mean) ** 2).mean()`, which is what `disc_jitter`
actually puts under `h·sqrt(·)`. -/
noncomputable def unweightedVar (tvals : List ℝ) (w : List Fl) : ℝ :=
  (tvals.map (fun t => (t - weightedMean tvals w) ^ 2)).sum / (tvals.length : ℝ)

/-- The Bernoulli success probability of the jitter indicator from
`NESS.__init__`: `Bernoulli(1 / self._w_rec.shape[0] ** (self._p / 2))`
with `M` outer particles. -/
noncomputable def nessIndexProb (M : ℕ) (p : ℕ) : ℝ :=
  1 / (M : ℝ) ^ ((p : ℝ) / 2)

/-! ## Outer algorithms (`pyfilter/algorithms/ness.py`, `smc2.py`,
`pyfilter/filters/nessmc2.py`)

`ParticleFilter`, `KalmanFilter` (`pyfilter/filters/base.py`) and
`SequentialAlgorithm` (`pyfilter/algorithms/base.py`) are absent from the
sources, so the inner filter is kept abstract: `FilterOps` collects,
modelled from spec 4.7, exactly the operations the outer algorithms
invoke on it.  Randomness (resampling indices, the PMMH acceptance
comparison) is folded into the abstract operations. -/

/-- The class of the inner filter, as tested by
`isinstance(self._filter, KalmanFilter)` in `SMC2._increase_states`. -/
inductive FilterKind where
  | particle : FilterKind
  | kalman : FilterKind
deriving DecidableEq

/-- The phases of one outer update step, emitted as an event trace.
`propagate`, `weight` and `recordLL` are the phases of one inner
`filter(y)` call (spec 4.7: proposal draw, weight update, recording of
the incremental log-likelihood); `essCheck` and `resampleOuter` are the
outer ESS test and outer resampling; `rejuvenate` marks the start of the
SMC² PMMH rejuvenation whose internal phases are `rejMove`,
`rejLongfilter`, `rejExchange`; `increaseStates` marks the state-particle
doubling. -/
inductive Event where
  | jitter : Event
  | propagate : Event
  | weight : Event
  | recordLL : Event
  | essCheck : Event
  | resampleOuter : Event
  | rejuvenate : Event
  | rejMove : Event
  | rejLongfilter : Event
  | rejExchange : Event
  | increaseStates : Event
deriving DecidableEq

/-- `a` precedes `b` in the trace `tr`: every occurrence of `b` has an
earlier occurrence of `a`. -/
def precedes (tr : List Event) (a b : Event) : Prop :=
  ∀ j : Fin tr.length, tr.get j = b →
    ∃ i : Fin tr.length, (i : ℕ) < (j : ℕ) ∧ tr.get i = a

instance precedesDecidable (tr : List Event) (a b : Event) : Decidable (precedes tr a b) :=
  decidable_of_iff (∀ j : Fin tr.length, tr.get j = b →
    ∃ i : Fin tr.length, (i : ℕ) < (j : ℕ) ∧ tr.get i = a) Iff.rfl

/-- Modelled from the spec: the interface of the inner filter
(`pyfilter/filters/base.py` is not among the sources).  Fields mirror the
calls made by `NESS.update`, `SMC2.update`, `SMC2._rejuvenate` and
`SMC2._increase_states`. -/
structure FilterOps (F : Type) where
  /-- `self._filter.filter(y)`: one filtering step. -/
  step : F → ℝ → F
  /-- `self._filter.s_ll[-1]`: the last incremental log-likelihoods, one
  per outer particle. -/
  lastLL : F → List Fl
  /-- `self._filter._particles[0]`: the number of outer particles. -/
  particlesOuter : F → ℕ
  /-- `self._filter._resamp(w)`: draws ancestor indices (randomness folded
  in). -/
  resamp : List Fl → List ℕ
  /-- `self._filter.resample(inds, entire_history=False)`. -/
  resampleCur : F → List ℕ → F
  /-- `self._filter.resample(inds, entire_history=True)`. -/
  resampleHist : F → List ℕ → F
  /-- `self._filter.copy()`. -/
  copy : F → F
  /-- `.reset()`. -/
  reset : F → F
  /-- The `.initialize()` call on a filter. -/
  initFilter : F → F
  /-- `.set_particles((M, 2 * particles[1]))`. -/
  setParticlesDouble : F → F
  /-- `.longfilter(data, bar=False)`. -/
  longfilter : F → List ℝ → F
  /-- `_mcmc_move(t_filt.ssm.flat_theta_dists, dist)`: installs fresh
  proposals in the copied filter (proposal distribution and randomness
  folded in). -/
  mcmcMove : F → F
  /-- The PMMH acceptance decision per outer particle
  (`u < quotient + plogquot + kernel`, randomness folded in). -/
  acceptMask : F → F → List Bool
  /-- `self._filter.exchange(t_filt, toaccept)`. -/
  exchange : F → F → List Bool → F
  /-- The class of the filter (`isinstance(·, KalmanFilter)`). -/
  kind : F → FilterKind
  /-- `self._filter.ssm.p_apply(lambda x: self.kernel(x, self._w_rec),
  transformed=True)`: the NESS jitter applied to the filter's model
  parameters. -/
  jitterApply : F → List Fl → F

/-- The mutable state of an outer algorithm: the accumulated observations
`self._td`, the inner filter, the outer log-weights `self._w_rec` and the
resampling/rejuvenation threshold `self._th`. -/
structure AlgState (F : Type) where
  td : List ℝ
  filter : F
  w_rec : List Fl
  th : ℝ

/-- The events of one inner `filter(y)` call, in the order of spec 4.7. -/
def innerStepEvents : List Event := [Event.propagate, Event.weight, Event.recordLL]

/-- The default rejuvenation threshold of `SMC2.__init__`. -/
noncomputable def smc2DefaultThreshold : ℝ := 0.2

/-- The default resampling threshold of `NESS.__init__`. -/
noncomputable def nessDefaultThreshold : ℝ := 0.9

/-- `SMC2._increase_states`: returns immediately when the inner filter is
a `KalmanFilter`; otherwise replaces the filter by a fresh copy with
doubled state particles re-run over the accumulated observations (the
commented-out weight correction is absent: `_w_rec` is untouched). -/
noncomputable def increaseStates {F : Type} (ops : FilterOps F) (s : AlgState F) :
    AlgState F :=
  if ops.kind s.filter = FilterKind.kalman then s
  else
    { s with filter :=
        ops.longfilter (ops.initFilter (ops.setParticlesDouble
          (ops.reset (ops.copy s.filter)))) s.td }

/-- `SMC2._rejuvenate`: resample the outer particles with the full
history, move a fresh copy via MCMC, re-filter it over the accumulated
observations, exchange accepted particles, reset the outer log-weights to
zero, and double the state particles when fewer than 20% were accepted.
Returns the new state and the emitted event trace. -/
noncomputable def rejuvenate {F : Type} (ops : FilterOps F) (s : AlgState F) :
    AlgState F × List Event :=
  let inds := ops.resamp s.w_rec
  let f1 := ops.resampleHist s.filter inds
  let t0 := ops.mcmcMove (ops.initFilter (ops.reset (ops.copy f1)))
  let t1 := ops.longfilter t0 s.td
  let acc := ops.acceptMask f1 t1
  let f2 := ops.exchange f1 t1 acc
  let s1 : AlgState F :=
    { td := s.td, filter := f2,
      w_rec := List.replicate s.w_rec.length (Fl.real 0), th := s.th }
  let base := [Event.rejuvenate, Event.resampleOuter, Event.rejMove,
    Event.rejLongfilter, Event.rejExchange]
  if ((acc.filter (fun b => b)).length : ℝ) < 0.2 * (acc.length : ℝ) then
    (increaseStates ops s1, base ++ [Event.increaseStates])
  else (s1, base)

/-- `SMC2.update`: append `y` to the observation buffer, advance the
inner filter, add the last incremental log-likelihood to the outer
log-weights, and rejuvenate when the ESS falls below `th · M`
(`M = self._w_rec.shape[0]`). -/
noncomputable def smc2Update {F : Type} (ops : FilterOps F) (s : AlgState F) (y : ℝ) :
    AlgState F × List Event :=
  let td1 := s.td ++ [y]
  let f1 := ops.step s.filter y
  let w1 := List.zipWith fadd s.w_rec (ops.lastLL f1)
  let s1 : AlgState F := { td := td1, filter := f1, w_rec := w1, th := s.th }
  if get_ess w1 < s.th * (w1.length : ℝ) then
    let r := rejuvenate ops s1
    (r.1, innerStepEvents ++ [Event.essCheck] ++ r.2)
  else (s1, innerStepEvents ++ [Event.essCheck])

/-- `NESS.update`: jitter the parameters, advance the inner filter, add
the last incremental log-likelihood to the outer log-weights, and
resample the outer particles (current state only, `entire_history=False`)
when the ESS falls below `th · M` (`M = self._filter._particles[0]`),
resetting the outer log-weights to zero. -/
noncomputable def nessUpdate {F : Type} (ops : FilterOps F) (s : AlgState F) (y : ℝ) :
    AlgState F × List Event :=
  let f0 := ops.jitterApply s.filter s.w_rec
  let f1 := ops.step f0 y
  let w1 := List.zipWith fadd s.w_rec (ops.lastLL f1)
  if get_ess w1 < s.th * (ops.particlesOuter f1 : ℝ) then
    ({ td := s.td, filter := ops.resampleCur f1 (ops.resamp w1),
       w_rec := List.replicate w1.length (Fl.real 0), th := s.th },
     [Event.jitter] ++ innerStepEvents ++ [Event.essCheck, Event.resampleOuter])
  else
    ({ td := s.td, filter := f1, w_rec := w1, th := s.th },
     [Event.jitter] ++ innerStepEvents ++ [Event.essCheck])

/-! ## NESSMC² (`pyfilter/filters/nessmc2.py`) -/

/-- The state of the `NESSMC2` hybrid: the two wrapped algorithms (which
share the inner filter), the handshake fraction `self._hs`, the switch
flag `self._switched`, the dataset reference `self._td` installed by
`longfilter`, and the attributes `self._smc2._ior` / `self._smc2._recw`
read by `NESSMC2.filter`.  Modelled from the spec for the absent base
classes: per spec §9(iii) no class in the repository ever assigns `_ior`
or `_recw`, so they are `Option` fields that remain `none`; reading them
raises `AttributeError`. -/
structure Nessmc2State (F : Type) where
  smc2 : AlgState F
  ness : AlgState F
  hs : ℝ
  switched : Bool
  td : Option (List ℝ)
  ior : Option ℕ
  recw : Option (List Fl)

/-- `NESSMC2.__init__` with a given inner filter: builds the SMC² wrapper
(threshold 0.4) and the NESS wrapper sharing the same filter; `_ior` and
`_recw` are never assigned. -/
noncomputable def nessmc2Init {F : Type} (filter0 : F) (M : ℕ) : Nessmc2State F :=
  { smc2 := { td := [], filter := filter0,
              w_rec := List.replicate M (Fl.real 0), th := 0.4 }
    ness := { td := [], filter := filter0,
              w_rec := List.replicate M (Fl.real 0), th := nessDefaultThreshold }
    hs := 0.2
    switched := false
    td := none
    ior := none
    recw := none }

/-- `NESSMC2.filter`: reads `self._smc2._ior` to decide the dispatch; the
attribute was never assigned, so the read raises `AttributeError`.  The
remaining branches model the dispatch the code would perform if the
attributes existed. -/
noncomputable def nessmc2Filter {F : Type} (ops : FilterOps F) (s : Nessmc2State F)
    (y : ℝ) : Except PyError (Nessmc2State F) :=
  match s.ior with
  | none => .error .attributeError
  | some ior =>
      match s.td with
      | none => .error .attributeError
      | some data =>
          if (ior : ℝ) < s.hs * (data.length : ℝ) then
            .ok { s with smc2 := (smc2Update ops s.smc2 y).1 }
          else
            match s.recw with
            | none => .error .attributeError
            | some recw =>
                let inds := ops.resamp recw
                let fres := ops.resampleCur s.smc2.filter inds
                let s1 := if s.switched then s else
                  { s with switched := true,
                           smc2 := { s.smc2 with filter := fres },
                           ness := { s.ness with filter := fres },
                           recw := some (List.replicate recw.length (Fl.real 0)) }
                .ok { s1 with ness := (nessUpdate ops s1.ness y).1 }

/-- `NESSMC2.longfilter`: installs the dataset
(`self._td = self._smc2._td = data`), then calls `self.filter` on each
observation in order; clears the dataset on success. -/
noncomputable def nessmc2Longfilter {F : Type} (ops : FilterOps F)
    (s : Nessmc2State F) (data : List ℝ) : Except PyError (Nessmc2State F) :=
  let s0 := { s with td := some data }
  (data.foldlM (fun st yi => nessmc2Filter ops st yi) s0).map
    (fun st => { st with td := none })

/-! ## Concrete instantiations used as witnesses -/

/-- A trivial concrete inner filter over `ℕ` (the filter state counts the
steps taken); all abstract operations are simple total functions. -/
noncomputable def natOps : FilterOps ℕ :=
  { step := fun f _ => f + 1
    lastLL := fun _ => [Fl.real 0]
    particlesOuter := fun _ => 1
    resamp := fun _ => []
    resampleCur := fun f _ => f
    resampleHist := fun f _ => f
    copy := fun f => f
    reset := fun _ => 0
    initFilter := fun f => f
    setParticlesDouble := fun f => f
    longfilter := fun f d => f + d.length
    mcmcMove := fun f => f
    acceptMask := fun _ _ => []
    exchange := fun f _ _ => f
    kind := fun _ => FilterKind.particle
    jitterApply := fun f _ => f }

/-- Like `natOps` but reporting six outer particles' incremental
log-likelihoods, all zero. -/
noncomputable def natOps6 : FilterOps ℕ :=
  { natOps with
      lastLL := fun _ =>
        [Fl.real 0, Fl.real 0, Fl.real 0, Fl.real 0, Fl.real 0, Fl.real 0],
      particlesOuter := fun _ => 6 }

/-- Like `natOps` but the filter is a Kalman filter. -/
noncomputable def kalmanOps : FilterOps ℕ :=
  { natOps with kind := fun _ => FilterKind.kalman }

/-- An SMC² state with six outer particles whose log-weights are
degenerate in all but the first particle, so the ESS is `1 < 0.2 · 6`. -/
def smc2LowEssState : AlgState ℕ :=
  { td := [], filter := 0,
    w_rec := [Fl.real 0, Fl.neginf, Fl.neginf, Fl.neginf, Fl.neginf, Fl.neginf],
    th := 0.2 }

/-- A small SMC² state used to witness the non-rejuvenating branch. -/
def smc2SmallState : AlgState ℕ :=
  { td := [], filter := 0, w_rec := [Fl.real 0], th := 0.2 }

/-! ## Basic lemmas about the float operations -/

@[simp] lemma fmax_neginf_real (a : ℝ) : fmax Fl.neginf (Fl.real a) = Fl.real a := rfl

@[simp] lemma fmax_real_neginf (a : ℝ) : fmax (Fl.real a) Fl.neginf = Fl.real a := rfl

@[simp] lemma fmax_neginf_neginf : fmax Fl.neginf Fl.neginf = Fl.neginf := rfl

@[simp] lemma fmax_real_real (a b : ℝ) : fmax (Fl.real a) (Fl.real b) = Fl.real (max a b) := rfl

@[simp] lemma fsub_real_real (a b : ℝ) : fsub (Fl.real a) (Fl.real b) = Fl.real (a - b) := rfl

@[simp] lemma fsub_neginf_real (a : ℝ) : fsub Fl.neginf (Fl.real a) = Fl.neginf := rfl

@[simp] lemma fsub_neginf_neginf : fsub Fl.neginf Fl.neginf = Fl.nan := rfl

@[simp] lemma fexp_real (a : ℝ) : fexp (Fl.real a) = Fl.real (Real.exp a) := rfl

@[simp] lemma fexp_neginf : fexp Fl.neginf = Fl.real 0 := rfl

@[simp] lemma fexp_nan : fexp Fl.nan = Fl.nan := rfl

@[simp] lemma fadd_real_real (a b : ℝ) : fadd (Fl.real a) (Fl.real b) = Fl.real (a + b) := rfl

@[simp] lemma fadd_neginf_real (a : ℝ) : fadd Fl.neginf (Fl.real a) = Fl.neginf := rfl

@[simp] lemma fadd_real_neginf (a : ℝ) : fadd (Fl.real a) Fl.neginf = Fl.neginf := rfl

@[simp] lemma fadd_nan_left (x : Fl) : fadd Fl.nan x = Fl.nan := by cases x <;> rfl

@[simp] lemma fadd_nan_right (x : Fl) : fadd x Fl.nan = Fl.nan := by cases x <;> rfl

@[simp] lemma fdiv_nan_left (x : Fl) : fdiv Fl.nan x = Fl.nan := by cases x <;> rfl

@[simp] lemma fdiv_nan_right (x : Fl) : fdiv x Fl.nan = Fl.nan := by cases x <;> rfl

lemma fdiv_real_real (a b : ℝ) (h : b ≠ 0) :
    fdiv (Fl.real a) (Fl.real b) = Fl.real (a / b) := by simp [fdiv, h]

@[simp] lemma zeronan_real (a : ℝ) : zeronan (Fl.real a) = Fl.real a := rfl

@[simp] lemma zeronan_nan : zeronan Fl.nan = Fl.real 0 := rfl

@[simp] lemma flSum_nil : flSum [] = Fl.real 0 := rfl

@[simp] lemma flSum_cons (x : Fl) (l : List Fl) : flSum (x :: l) = fadd x (flSum l) := rfl

@[simp] lemma flToReal_real (a : ℝ) : flToReal (Fl.real a) = a := rfl

lemma flSum_mem_nan (l : List Fl) (h : Fl.nan ∈ l) : flSum l = Fl.nan := by
  induction l with
  | nil => simp at h
  | cons x t ih =>
      rcases List.mem_cons.mp h with h | h
      · subst h; simp
      · simp [ih h]

lemma flSum_of_real (l : List Fl) (h : ∀ x ∈ l, ∃ a : ℝ, x = Fl.real a) :
    flSum l = Fl.real ((l.map flToReal).sum) := by
  induction l with
  | nil => simp
  | cons x t ih =>
      obtain ⟨a, ha⟩ := h x (by simp)
      subst ha
      rw [flSum_cons, ih (fun y hy => h y (by simp [hy]))]
      simp

lemma foldl_fmax_real_acc (w : List Fl) (hw : ∀ x ∈ w, flClean x) (a : ℝ) :
    ∃ b : ℝ, w.foldl fmax (Fl.real a) = Fl.real b := by
  induction w generalizing a with
  | nil => exact ⟨a, rfl⟩
  | cons x t ih =>
      rcases hw x (by simp) with h | ⟨c, h⟩ <;> subst h
      · simpa using ih (fun y hy => hw y (by simp [hy])) a
      · simpa using ih (fun y hy => hw y (by simp [hy])) (max a c)

lemma flListMax_all_neginf (w : List Fl) (h : ∀ x ∈ w, x = Fl.neginf) :
    flListMax w = Fl.neginf := by
  induction w with
  | nil => rfl
  | cons x t ih =>
      have hx := h x (by simp)
      subst hx
      have : flListMax (Fl.neginf :: t) = flListMax t := by
        simp [flListMax]
      rw [this]
      exact ih (fun y hy => h y (by simp [hy]))

lemma flListMax_cases (w : List Fl) (hw : ∀ x ∈ w, flClean x) :
    (flListMax w = Fl.neginf ∧ ∀ x ∈ w, x = Fl.neginf) ∨
      ∃ b : ℝ, flListMax w = Fl.real b := by
  induction w with
  | nil => exact Or.inl ⟨rfl, by simp⟩
  | cons x t ih =>
      rcases hw x (by simp) with h | ⟨c, h⟩ <;> subst h
      · have heq : flListMax (Fl.neginf :: t) = flListMax t := by simp [flListMax]
        rcases ih (fun y hy => hw y (by simp [hy])) with ⟨h1, h2⟩ | ⟨b, hb⟩
        · exact Or.inl ⟨heq ▸ h1, by
            intro y hy
            rcases List.mem_cons.mp hy with h | h
            · exact h
            · exact h2 y h⟩
        · exact Or.inr ⟨b, heq ▸ hb⟩
      · refine Or.inr ?_
        have heq : flListMax (Fl.real c :: t) = t.foldl fmax (Fl.real c) := by
          simp [flListMax]
        rw [heq]
        exact foldl_fmax_real_acc t (fun y hy => hw y (by simp [hy])) c

lemma list_sum_div (l : List ℝ) (c : ℝ) :
    (l.map (fun x => x / c)).sum = l.sum / c := by
  induction l with
  | nil => simp
  | cons x t ih => simp [ih, add_div]

lemma flSum_map_real (l : List ℝ) : flSum (l.map Fl.real) = Fl.real l.sum := by
  induction l with
  | nil => simp
  | cons x t ih => simp [ih]

lemma flSum_replicate_zero (n : ℕ) : flSum (List.replicate n (Fl.real 0)) = Fl.real 0 := by
  induction n with
  | zero => simp
  | succ k ih => simp [List.replicate_succ, ih]

lemma list_real_repr (l : List Fl) (h : ∀ x ∈ l, ∃ a : ℝ, x = Fl.real a) :
    l = (l.map flToReal).map Fl.real := by
  induction l with
  | nil => simp
  | cons x t ih =>
      obtain ⟨a, ha⟩ := h x (by simp)
      subst ha
      simp only [List.map_cons, flToReal_real, List.cons.injEq, true_and]
      exact ih (fun y hy => h y (by simp [hy]))

lemma map_norm_real (l : List ℝ) (S : ℝ) (hS : S ≠ 0) :
    ((List.map Fl.real l).map (fun x => fdiv x (Fl.real S))).map zeronan =
      List.map Fl.real (l.map (fun a => a / S)) := by
  induction l with
  | nil => simp
  | cons a t ih => simp only [List.map_cons, fdiv_real_real a S hS, zeronan_real, ih]

/-- When every log-weight is `-inf` (all particles degenerate), the
normalized weights all become `nan`, are zeroed, sum to zero, and the
uniform fallback fires. -/
lemma vector_norm_all_neginf (w : List Fl) (h : ∀ x ∈ w, x = Fl.neginf) (hne : w ≠ []) :
    vector_norm w = List.replicate w.length (Fl.real (1 / (w.length : ℝ))) := by
  have hn : w.length ≠ 0 := fun h0 => hne (List.length_eq_zero.mp h0)
  have hm : flListMax w = Fl.neginf := flListMax_all_neginf w h
  have h1 : w.map (fun x => fexp (fsub x (flListMax w))) = List.replicate w.length Fl.nan := by
    rw [hm]
    have hcg : ∀ x ∈ w, fexp (fsub x Fl.neginf) = Fl.nan := by
      intro x hx
      rw [h x hx]
      rfl
    calc w.map (fun x => fexp (fsub x Fl.neginf))
        = w.map (fun _ => Fl.nan) := List.map_congr_left hcg
      _ = List.replicate w.length Fl.nan := List.map_const' w Fl.nan
  have hs2 : flSum (List.replicate w.length Fl.nan) = Fl.nan :=
    flSum_mem_nan _ (List.mem_replicate.mpr ⟨hn, rfl⟩)
  simp only [vector_norm, h1, hs2]
  have h2 : (List.replicate w.length Fl.nan).map (fun x => fdiv x Fl.nan) =
      List.replicate w.length Fl.nan := by
    rw [List.map_replicate]
    simp
  rw [h2, List.map_replicate, zeronan_nan, flSum_replicate_zero, if_pos rfl]

/-- When some log-weight is finite, the max-shift produces real
exponentials with a strictly positive sum, and normalization divides
through without hitting the fallback. -/
lemma vector_norm_not_all_neginf (w : List Fl) (hw : ∀ x ∈ w, flClean x)
    (b : ℝ) (hm : flListMax w = Fl.real b) :
    (∀ x ∈ vector_norm w, ∃ a : ℝ, x = Fl.real a ∧ 0 ≤ a) ∧
      flSum (vector_norm w) = Fl.real 1 := by
  have hex : ∃ c : ℝ, Fl.real c ∈ w := by
    by_contra hnc
    push_neg at hnc
    have hall : ∀ x ∈ w, x = Fl.neginf := by
      intro x hx
      rcases hw x hx with h | ⟨c, h⟩
      · exact h
      · exact absurd (h ▸ hx) (hnc c)
    rw [flListMax_all_neginf w hall] at hm
    exact Fl.noConfusion hm
  obtain ⟨c, hc⟩ := hex
  have hrew : ∀ x ∈ w.map (fun x => fexp (fsub x (flListMax w))),
      ∃ a : ℝ, x = Fl.real a ∧ 0 ≤ a := by
    intro x hx
    obtain ⟨y, hy, hyx⟩ := List.mem_map.mp hx
    rcases hw y hy with h | ⟨d, h⟩ <;> subst h <;> rw [hm] at hyx
    · exact ⟨0, hyx.symm, le_refl 0⟩
    · exact ⟨Real.exp (d - b), by
        rw [← hyx]
        rfl, (Real.exp_pos _).le⟩
  set rl : List ℝ := (w.map (fun x => fexp (fsub x (flListMax w)))).map flToReal with hrl
  have hrepr : w.map (fun x => fexp (fsub x (flListMax w))) = List.map Fl.real rl :=
    list_real_repr _ (fun x hx => (hrew x hx).imp (fun a ha => ha.1))
  have hrl_nonneg : ∀ r ∈ rl, 0 ≤ r := by
    intro r hr
    obtain ⟨x, hx, hxr⟩ := List.mem_map.mp hr
    obtain ⟨a, hxa, ha⟩ := hrew x hx
    rw [hxa] at hxr
    simp only [flToReal_real] at hxr
    exact hxr ▸ ha
  have hmem : Real.exp (c - b) ∈ rl := by
    have h0 : fexp (fsub (Fl.real c) (flListMax w)) ∈
        w.map (fun x => fexp (fsub x (flListMax w))) := List.mem_map_of_mem _ hc
    refine List.mem_map.mpr ⟨fexp (fsub (Fl.real c) (flListMax w)), h0, ?_⟩
    rw [hm]
    rfl
  have hSpos : 0 < rl.sum :=
    lt_of_lt_of_le (Real.exp_pos (c - b)) (List.single_le_sum hrl_nonneg _ hmem)
  have hS0 : rl.sum ≠ 0 := ne_of_gt hSpos
  have hres : vector_norm w = List.map Fl.real (rl.map (fun a => a / rl.sum)) := by
    simp only [vector_norm, hrepr, flSum_map_real]
    rw [map_norm_real rl rl.sum hS0, flSum_map_real, list_sum_div, div_self hS0,
      if_neg (by simp)]
  have hsum1 : flSum (vector_norm w) = Fl.real 1 := by
    rw [hres, flSum_map_real, list_sum_div, div_self hS0]
  refine ⟨?_, hsum1⟩
  intro x hx
  rw [hres] at hx
  obtain ⟨r, hr, hrx⟩ := List.mem_map.mp hx
  obtain ⟨a, ha, har⟩ := List.mem_map.mp hr
  refine ⟨r, hrx.symm, ?_⟩
  rw [← har]
  exact div_nonneg (hrl_nonneg a ha) hSpos.le

lemma flSum_replicate_real (n : ℕ) (a : ℝ) :
    flSum (List.replicate n (Fl.real a)) = Fl.real (n * a) := by
  induction n with
  | zero => simp
  | succ k ih =>
      rw [List.replicate_succ, flSum_cons, ih, fadd_real_real]
      push_cast
      ring_nf

/-- The full contract of `_vector`: on a nonempty vector of genuine
log-weights the result is a vector of non-negative reals summing to one,
and when every input weight is `-inf` it is the uniform vector. -/
lemma vector_norm_spec (w : List Fl) (hne : w ≠ []) (hw : ∀ x ∈ w, flClean x) :
    (∀ x ∈ vector_norm w, ∃ a : ℝ, x = Fl.real a ∧ 0 ≤ a) ∧
      flSum (vector_norm w) = Fl.real 1 ∧
      ((∀ x ∈ w, x = Fl.neginf) →
        vector_norm w = List.replicate w.length (Fl.real (1 / (w.length : ℝ)))) := by
  rcases flListMax_cases w hw with ⟨_, hall⟩ | ⟨b, hm⟩
  · have hres := vector_norm_all_neginf w hall hne
    have hn : w.length ≠ 0 := fun h0 => hne (List.length_eq_zero.mp h0)
    have hnR : (w.length : ℝ) ≠ 0 := Nat.cast_ne_zero.mpr hn
    refine ⟨?_, ?_, fun _ => hres⟩
    · intro x hx
      rw [hres] at hx
      refine ⟨1 / (w.length : ℝ), List.eq_of_mem_replicate hx, ?_⟩
      positivity
    · rw [hres, flSum_replicate_real]
      congr 1
      field_simp
  · obtain ⟨h1, h2⟩ := vector_norm_not_all_neginf w hw b hm
    refine ⟨h1, h2, ?_⟩
    intro hall
    rw [flListMax_all_neginf w hall] at hm
    exact Fl.noConfusion hm

/-- C6: `normalize` returns non-negative weights summing to 1 along the
last axis, in both the 1-D (`_vector`) and 2-D (`_matrix`, row-wise) case;
whenever the exponentiated max-shifted weights collapse so that the
normalized vector sums to zero (all inputs `-inf`), the result defaults to
the uniform vector `1/N`, so normalization never fails. -/
theorem c6_normalize_regularized (w : List Fl) (mt : List (List Fl))
    (hne : w ≠ []) (hw : ∀ x ∈ w, flClean x)
    (hmt : ∀ row ∈ mt, row ≠ [] ∧ ∀ x ∈ row, flClean x) :
    ((∀ x ∈ vector_norm w, ∃ a : ℝ, x = Fl.real a ∧ 0 ≤ a) ∧
      flSum (vector_norm w) = Fl.real 1 ∧
      ((∀ x ∈ w, x = Fl.neginf) →
        vector_norm w = List.replicate w.length (Fl.real (1 / (w.length : ℝ))))) ∧
    (∀ row ∈ mt, (∀ x ∈ vector_norm row, ∃ a : ℝ, x = Fl.real a ∧ 0 ≤ a) ∧
      flSum (vector_norm row) = Fl.real 1 ∧
      ((∀ x ∈ row, x = Fl.neginf) →
        vector_norm row = List.replicate row.length (Fl.real (1 / (row.length : ℝ))))) ∧
    matrix_norm mt = mt.map vector_norm ∧
    normalize (Tens.vec w) = Tens.vec (vector_norm w) := by
  exact ⟨vector_norm_spec w hne hw,
    fun row hr => vector_norm_spec row (hmt row hr).1 (hmt row hr).2, rfl, rfl⟩

/-- Witness for C6 at the concrete inputs `w = [0, -inf]` (one live
particle) and `mt = [[-inf]]` (a fully degenerate row hitting the uniform
fallback). -/
theorem c6_normalize_regularized_witness :
    (([Fl.real 0, Fl.neginf] : List Fl) ≠ [] ∧
      (∀ x ∈ ([Fl.real 0, Fl.neginf] : List Fl), flClean x) ∧
      (∀ row ∈ ([[Fl.neginf]] : List (List Fl)), row ≠ [] ∧ ∀ x ∈ row, flClean x)) ∧
    (((∀ x ∈ vector_norm [Fl.real 0, Fl.neginf], ∃ a : ℝ, x = Fl.real a ∧ 0 ≤ a) ∧
      flSum (vector_norm [Fl.real 0, Fl.neginf]) = Fl.real 1 ∧
      ((∀ x ∈ ([Fl.real 0, Fl.neginf] : List Fl), x = Fl.neginf) →
        vector_norm [Fl.real 0, Fl.neginf] =
          List.replicate (List.length [Fl.real 0, Fl.neginf]) (Fl.real (1 / ((List.length [Fl.real 0, Fl.neginf] : ℕ) : ℝ))))) ∧
    (∀ row ∈ ([[Fl.neginf]] : List (List Fl)),
      (∀ x ∈ vector_norm row, ∃ a : ℝ, x = Fl.real a ∧ 0 ≤ a) ∧
      flSum (vector_norm row) = Fl.real 1 ∧
      ((∀ x ∈ row, x = Fl.neginf) →
        vector_norm row = List.replicate row.length (Fl.real (1 / (row.length : ℝ))))) ∧
    matrix_norm [[Fl.neginf]] = List.map vector_norm [[Fl.neginf]] ∧
    normalize (Tens.vec [Fl.real 0, Fl.neginf]) =
      Tens.vec (vector_norm [Fl.real 0, Fl.neginf])) := by
  have h1 : ([Fl.real 0, Fl.neginf] : List Fl) ≠ [] := by simp
  have h2 : ∀ x ∈ ([Fl.real 0, Fl.neginf] : List Fl), flClean x := by
    intro x hx
    simp only [List.mem_cons, List.not_mem_nil, or_false] at hx
    rcases hx with h | h
    · subst h
      exact Or.inr ⟨0, rfl⟩
    · subst h
      exact Or.inl rfl
  have h3 : ∀ row ∈ ([[Fl.neginf]] : List (List Fl)), row ≠ [] ∧ ∀ x ∈ row, flClean x := by
    intro row hr
    simp only [List.mem_singleton] at hr
    subst hr
    refine ⟨by simp, ?_⟩
    intro x hx
    simp only [List.mem_singleton] at hx
    exact Or.inl hx
  exact ⟨⟨h1, h2, h3⟩, c6_normalize_regularized _ _ h1 h2 h3⟩

/-- C1 (counterexample): for the process with standard normal noise and
constant scale `g = 2`, `weight(0, 0)` is not the observation log-density
`log p(y | x)` (computed by the repository's own `Normal.logpdf` with
location `f(x)` and scale `g(x)`): the `-log g` Jacobian term is missing. -/
theorem c1_weight_counterexample :
    weight scaleTwoModel 0 0 ≠
      normal_logpdf 0 (pmean scaleTwoModel 0) (pscale scaleTwoModel 0) := by
  intro h
  have hL : weight scaleTwoModel 0 0 = -Real.log (2 * Real.pi) / 2 := by
    simp [weight, scaleTwoModel, pmean, pscale, stdnormal_logprob, normal_logpdf]
  have hR : normal_logpdf 0 (pmean scaleTwoModel 0) (pscale scaleTwoModel 0) =
      -Real.log (2 * Real.pi * 4) / 2 := by
    simp [scaleTwoModel, pmean, pscale, normal_logpdf]
    norm_num
  rw [hL, hR] at h
  have hlogeq : Real.log (2 * Real.pi) = Real.log (2 * Real.pi * 4) := by linarith
  have hlt : Real.log (2 * Real.pi) < Real.log (2 * Real.pi * 4) :=
    Real.log_lt_log (by positivity) (by nlinarith [Real.pi_pos])
  linarith

/-- C1 (amended): for every 1-D process with standard normal noise,
`weight(y, x)` is the noise log-density read off at the rescaled value
`(y - f(x;θ)) / g(x;θ)`, which equals the observation log-density
`log p(y | x)` **plus** `log g(x;θ)` — i.e. it is the log-density exactly
when the scale is 1, the omitted term being the `-log g` Jacobian. -/
theorem c1_weight_amended (m : Proc1D) (y x : ℝ)
    (hnoise : m.noiseLogProb = stdnormal_logprob) (hs : 0 < pscale m x) :
    weight m y x =
      normal_logpdf y (pmean m x) (pscale m x) + Real.log (pscale m x) := by
  have hs0 : pscale m x ≠ 0 := ne_of_gt hs
  rw [weight, hnoise, stdnormal_logprob, normal_logpdf, normal_logpdf]
  have hlog : Real.log (2 * Real.pi * pscale m x ^ 2) =
      Real.log (2 * Real.pi) + 2 * Real.log (pscale m x) := by
    rw [Real.log_mul (by positivity) (by positivity), Real.log_pow]
    push_cast
    ring
  rw [hlog]
  have hsq : ((y - pmean m x) / pscale m x - 0) ^ 2 =
      (y - pmean m x) ^ 2 / pscale m x ^ 2 := by
    rw [sub_zero, div_pow]
  rw [hsq]
  field_simp
  ring

/-- Witness for the amended C1 at the concrete model with scale 2. -/
theorem c1_weight_amended_witness :
    (scaleTwoModel.noiseLogProb = stdnormal_logprob ∧ 0 < pscale scaleTwoModel 0) ∧
    weight scaleTwoModel 1 0 =
      normal_logpdf 1 (pmean scaleTwoModel 0) (pscale scaleTwoModel 0) +
        Real.log (pscale scaleTwoModel 0) :=
  ⟨⟨rfl, by norm_num [pscale, scaleTwoModel]⟩,
    c1_weight_amended scaleTwoModel 1 0 rfl (by norm_num [pscale, scaleTwoModel])⟩

/-- C5: for every 1-D linear-Gaussian observation model the optimal
proposal's `draw(y, x_prev)` samples from a normal whose variance (the
square of the returned standard deviation) is `1/(σ_h⁻² + c²·σ_o⁻²)` and
whose mean is `var·(σ_h⁻²·μ + c·σ_o⁻²·y)` with `μ = f(x_prev)`; in cleared
form `var = σ_h²σ_o²/(σ_o² + c²σ_h²)` and
`mean = (σ_o²·μ + c·σ_h²·y)/(σ_o² + c²σ_h²)`. -/
theorem c5_linear_gaussian_proposal (mdl : LinGauss1D) (y x : ℝ)
    (hh : 0 < mdl.hscale x) (ho : 0 < mdl.oscale x) :
    (lgoDraw mdl y x).1 =
      (1 / (1 / mdl.hscale x ^ 2 + mdl.oc ^ 2 * (1 / mdl.oscale x ^ 2))) *
        ((1 / mdl.hscale x ^ 2) * mdl.hmean x + mdl.oc * (1 / mdl.oscale x ^ 2) * y) ∧
    ((lgoDraw mdl y x).2) ^ 2 =
      1 / (1 / mdl.hscale x ^ 2 + mdl.oc ^ 2 * (1 / mdl.oscale x ^ 2)) ∧
    ((lgoDraw mdl y x).2) ^ 2 =
      mdl.hscale x ^ 2 * mdl.oscale x ^ 2 /
        (mdl.oscale x ^ 2 + mdl.oc ^ 2 * mdl.hscale x ^ 2) ∧
    (lgoDraw mdl y x).1 =
      (mdl.oscale x ^ 2 * mdl.hmean x + mdl.oc * mdl.hscale x ^ 2 * y) /
        (mdl.oscale x ^ 2 + mdl.oc ^ 2 * mdl.hscale x ^ 2) := by
  have hh0 : mdl.hscale x ≠ 0 := ne_of_gt hh
  have ho0 : mdl.oscale x ≠ 0 := ne_of_gt ho
  have hden : 0 < 1 / mdl.hscale x ^ 2 + mdl.oc ^ 2 * (1 / mdl.oscale x ^ 2) := by
    positivity
  have hcov : 0 ≤ 1 / (1 / mdl.hscale x ^ 2 + mdl.oc ^ 2 * (1 / mdl.oscale x ^ 2)) := by
    positivity
  have hvar : ((lgoDraw mdl y x).2) ^ 2 =
      1 / (1 / mdl.hscale x ^ 2 + mdl.oc ^ 2 * (1 / mdl.oscale x ^ 2)) := by
    simp only [lgoDraw, kernel_1d]
    exact Real.sq_sqrt hcov
  refine ⟨rfl, hvar, ?_, ?_⟩
  · rw [hvar]
    field_simp
  · simp only [lgoDraw, kernel_1d]
    field_simp
    ring

/-- Witness for C5 at the concrete model with `σ_h = 1`, `c = 3`,
`σ_o = 2`, at `y = 1`, `x = 0`. -/
theorem c5_linear_gaussian_proposal_witness :
    (0 < lgConcrete.hscale 0 ∧ 0 < lgConcrete.oscale 0) ∧
    (lgoDraw lgConcrete 1 0).1 =
      (1 / (1 / lgConcrete.hscale 0 ^ 2 + lgConcrete.oc ^ 2 * (1 / lgConcrete.oscale 0 ^ 2))) *
        ((1 / lgConcrete.hscale 0 ^ 2) * lgConcrete.hmean 0 +
          lgConcrete.oc * (1 / lgConcrete.oscale 0 ^ 2) * 1) ∧
    ((lgoDraw lgConcrete 1 0).2) ^ 2 =
      1 / (1 / lgConcrete.hscale 0 ^ 2 + lgConcrete.oc ^ 2 * (1 / lgConcrete.oscale 0 ^ 2)) ∧
    ((lgoDraw lgConcrete 1 0).2) ^ 2 =
      lgConcrete.hscale 0 ^ 2 * lgConcrete.oscale 0 ^ 2 /
        (lgConcrete.oscale 0 ^ 2 + lgConcrete.oc ^ 2 * lgConcrete.hscale 0 ^ 2) ∧
    (lgoDraw lgConcrete 1 0).1 =
      (lgConcrete.oscale 0 ^ 2 * lgConcrete.hmean 0 + lgConcrete.oc * lgConcrete.hscale 0 ^ 2 * 1) /
        (lgConcrete.oscale 0 ^ 2 + lgConcrete.oc ^ 2 * lgConcrete.hscale 0 ^ 2) :=
  ⟨⟨by norm_num [lgConcrete], by norm_num [lgConcrete]⟩,
    c5_linear_gaussian_proposal lgConcrete 1 0 (by norm_num [lgConcrete])
      (by norm_num [lgConcrete])⟩

/-- C10: the very first assignment to a Distribution's `values` (stored
value still `None`) is accepted with no support check at all, so an
initial value outside `bounds()` can be installed; and any assignment
that succeeds once a value exists has passed the type, shape and bounds
validation against the existing value. -/
theorem c10_values_setter (s : DistState) (x : PyVal) (hnone : s.values = none) :
    setValues s x = .ok { s with values := some x } ∧
    (∀ (t t2 : DistState) (v x2 : PyVal), t.values = some v →
      setValues t x2 = .ok t2 →
      sameType v x2 ∧
      (∀ b : ℝ, x2 = .float b → t.lo ≤ b ∧ b ≤ t.hi) ∧
      (∀ b : ℤ, x2 = .int b → t.lo ≤ (b : ℝ) ∧ (b : ℝ) ≤ t.hi) ∧
      (∀ lb lv : List ℝ, x2 = .arr lb → v = .arr lv →
        lv.length = lb.length ∧ t.lo ≤ arrMin lb ∧ arrMax lb ≤ t.hi)) := by
  constructor
  · simp [setValues, hnone]
  · intro t t2 v x2 hv hok
    simp only [setValues, hv] at hok
    by_cases hst : sameType v x2
    · rw [if_pos hst] at hok
      refine ⟨hst, ?_, ?_, ?_⟩
      · intro b hb
        subst hb
        cases v with
        | float c =>
            by_cases hbd : t.lo ≤ b ∧ b ≤ t.hi
            · exact hbd
            · simp [hbd] at hok
        | int i => simp [sameType] at hst
        | arr l => simp [sameType] at hst
      · intro b hb
        subst hb
        cases v with
        | int i =>
            by_cases hbd : t.lo ≤ (b : ℝ) ∧ (b : ℝ) ≤ t.hi
            · exact hbd
            · simp [hbd] at hok
        | float c => simp [sameType] at hst
        | arr l => simp [sameType] at hst
      · intro lb lv hb hvv
        subst hb
        subst hvv
        by_cases hlen : lv.length = lb.length
        · by_cases hbd : t.lo ≤ arrMin lb ∧ arrMax lb ≤ t.hi
          · exact ⟨hlen, hbd.1, hbd.2⟩
          · simp [hlen, hbd] at hok
        · simp [hlen] at hok
    · rw [if_neg hst] at hok
      exact Except.noConfusion hok

/-- Witness for C10: a distribution with support bounds `(0, 1)` (as for
`Beta`) and no stored value accepts the out-of-bounds value `5.0`. -/
theorem c10_values_setter_witness :
    ((⟨0, 1, none⟩ : DistState).values = none ∧ ¬((0:ℝ) ≤ 5 ∧ (5:ℝ) ≤ 1)) ∧
    (setValues ⟨0, 1, none⟩ (.float 5) =
        .ok { (⟨0, 1, none⟩ : DistState) with values := some (.float 5) } ∧
      (∀ (t t2 : DistState) (v x2 : PyVal), t.values = some v →
        setValues t x2 = .ok t2 →
        sameType v x2 ∧
        (∀ b : ℝ, x2 = .float b → t.lo ≤ b ∧ b ≤ t.hi) ∧
        (∀ b : ℤ, x2 = .int b → t.lo ≤ (b : ℝ) ∧ (b : ℝ) ≤ t.hi) ∧
        (∀ lb lv : List ℝ, x2 = .arr lb → v = .arr lv →
          lv.length = lb.length ∧ t.lo ≤ arrMin lb ∧ arrMax lb ≤ t.hi))) :=
  ⟨⟨rfl, by norm_num⟩, c10_values_setter ⟨0, 1, none⟩ (.float 5) rfl⟩

/-- C2: `BaseModel.__init__` stores `_theta` as a generator expression
(its own docstring declares `tuple[Parameter]`), so the `theta` property
does **not** yield the same tuple on every access: the first full
iteration yields the parameter, the second yields nothing, and
consequently the first `p_prior()` call returns the prior log-density
(here 7) while the second returns `sum(()) = 0`. -/
theorem c2_theta_generator_consumed :
    (thetaIter thetaGen0).1.length = 1 ∧
    (thetaIter (thetaIter thetaGen0).2).1.length = 0 ∧
    (p_prior thetaGen0).1 = 7 ∧
    (p_prior (p_prior thetaGen0).2).1 = 0 ∧
    (p_prior thetaGen0).1 ≠ (p_prior (p_prior thetaGen0).2).1 := by
  refine ⟨rfl, rfl, ?_, ?_, ?_⟩
  · simp [p_prior, p_map, thetaIter, thetaGen0, constSevenParam]
  · simp [p_prior, p_map, thetaIter, thetaGen0]
  · have h1 : (p_prior thetaGen0).1 = 7 := by
      simp [p_prior, p_map, thetaIter, thetaGen0, constSevenParam]
    have h2 : (p_prior (p_prior thetaGen0).2).1 = 0 := by
      simp [p_prior, p_map, thetaIter, thetaGen0]
    rw [h1, h2]
    norm_num

lemma foldl_fmax_r0_rep (k : ℕ) :
    (List.replicate k Fl.neginf).foldl fmax (Fl.real 0) = Fl.real 0 := by
  induction k with
  | zero => rfl
  | succ n ih => simpa [List.replicate_succ] using ih

/-- Concrete evaluation of `_vector` on one live log-weight `0` followed
by `k` degenerate `-inf` weights: all mass goes to the live particle. -/
lemma vector_norm_unit (k : ℕ) :
    vector_norm (Fl.real 0 :: List.replicate k Fl.neginf) =
      Fl.real 1 :: List.replicate k (Fl.real 0) := by
  have hmax : flListMax (Fl.real 0 :: List.replicate k Fl.neginf) = Fl.real 0 := by
    simp only [flListMax, List.foldl_cons, fmax_neginf_real]
    exact foldl_fmax_r0_rep k
  simp only [vector_norm, hmax]
  have hrew : (Fl.real 0 :: List.replicate k Fl.neginf).map
      (fun x => fexp (fsub x (Fl.real 0))) = Fl.real 1 :: List.replicate k (Fl.real 0) := by
    simp [Real.exp_zero]
  rw [hrew]
  have hsum : flSum (Fl.real 1 :: List.replicate k (Fl.real 0)) = Fl.real 1 := by
    rw [flSum_cons, flSum_replicate_zero, fadd_real_real]
    norm_num
  rw [hsum]
  have hdiv : (Fl.real 1 :: List.replicate k (Fl.real 0)).map (fun x => fdiv x (Fl.real 1)) =
      Fl.real 1 :: List.replicate k (Fl.real 0) := by
    simp only [List.map_cons, List.map_replicate]
    rw [fdiv_real_real 1 1 one_ne_zero, fdiv_real_real 0 1 one_ne_zero]
    norm_num
  rw [hdiv]
  have hzn : (Fl.real 1 :: List.replicate k (Fl.real 0)).map zeronan =
      Fl.real 1 :: List.replicate k (Fl.real 0) := by
    simp [List.map_replicate]
  rw [hzn, hsum, if_neg (by simp)]

/-- The ESS of one live particle among `k+1` is `1`. -/
lemma get_ess_unit (k : ℕ) :
    get_ess (Fl.real 0 :: List.replicate k Fl.neginf) = 1 := by
  rw [get_ess, vector_norm_unit]
  simp [List.map_replicate, List.sum_replicate]

lemma zipWith3_getD (f : ℝ → ℝ → ℝ → ℝ) (as bs cs : List ℝ) (j : ℕ)
    (hj : j < as.length) (hb : bs.length = as.length) (hc : cs.length = as.length) :
    (zipWith3 f as bs cs).getD j 0 = f (as.getD j 0) (bs.getD j 0) (cs.getD j 0) := by
  induction as generalizing bs cs j with
  | nil => simp at hj
  | cons a t ih =>
      cases bs with
      | nil => simp at hb
      | cons b tb =>
          cases cs with
          | nil => simp at hc
          | cons c tc =>
              cases j with
              | zero => rfl
              | succ k =>
                  simp only [zipWith3, List.getD_cons_succ]
                  exact ih tb tc k (Nat.succ_lt_succ_iff.mp hj)
                    (by simpa using hb) (by simpa using hc)

/-- C4 (counterexample): with two particles at transformed values `0, 1`,
log-weights `[0, -inf]` (so the normalized weights are `[1, 0]`), `h = 1`
and all indicators and noise draws equal to `1`, `disc_jitter` disagrees
with the spec's formula: the code's standard deviation is the unweighted
root mean square deviation `sqrt(1/2)`, the spec's weight-normalized one
is `0`. -/
theorem c4_disc_jitter_counterexample :
    disc_jitter [0, 1] [Fl.real 0, Fl.neginf] 1 [1, 1] [1, 1] ≠
      disc_jitter_spec [0, 1] [Fl.real 0, Fl.neginf] 1 [1, 1] [1, 1] := by
  have hn : (vector_norm [Fl.real 0, Fl.neginf]).map flToReal = [1, 0] := by
    rw [show ([Fl.real 0, Fl.neginf] : List Fl) =
      Fl.real 0 :: List.replicate 1 Fl.neginf from rfl, vector_norm_unit]
    rfl
  intro h
  have h0 := congrArg (fun l => l.getD 0 0) h
  simp only [disc_jitter, disc_jitter_spec, hn, zipWith3] at h0
  norm_num at h0

/-- C4 (amended): each `disc_jitter` output is
`(1-I)·θ + I·(a·θ + (1-a)·θ̄ + h·sqrt(V)·ξ)` with `a = sqrt(1-h²)`, `θ̄` the
weight-normalized mean, but `V` the **unweighted** mean of squared
deviations from `θ̄` (not the weight-normalized variance); the Bernoulli
indicator's success probability from `NESS.__init__` is `M^(-p/2)` per
particle. -/
theorem c4_disc_jitter_amended (tvals : List ℝ) (w : List Fl) (h : ℝ)
    (ind ξ : List ℝ) (j : ℕ) (M p : ℕ)
    (hj : j < tvals.length) (hbi : ind.length = tvals.length)
    (hbx : ξ.length = tvals.length) (hM : 0 < M) :
    (disc_jitter tvals w h ind ξ).getD j 0 =
      (1 - ind.getD j 0) * tvals.getD j 0 +
        ind.getD j 0 * ((Real.sqrt (1 - h ^ 2) * tvals.getD j 0 +
          (1 - Real.sqrt (1 - h ^ 2)) * weightedMean tvals w) +
          h * Real.sqrt (unweightedVar tvals w) * ξ.getD j 0) ∧
    nessIndexProb M p = (M : ℝ) ^ (-((p : ℝ) / 2)) := by
  constructor
  · simp only [disc_jitter]
    rw [zipWith3_getD _ _ _ _ _ hj hbi hbx]
    rfl
  · rw [nessIndexProb, Real.rpow_neg (Nat.cast_nonneg M), one_div]

/-- Witness for the amended C4 at two particles, `h = 1/2`, index 0,
`M = 4`, `p = 2`. -/
theorem c4_disc_jitter_amended_witness :
    ((0 : ℕ) < ([0, 1] : List ℝ).length ∧ ([1, 0] : List ℝ).length = ([0, 1] : List ℝ).length ∧
      ([2, 3] : List ℝ).length = ([0, 1] : List ℝ).length ∧ (0 : ℕ) < 4) ∧
    ((disc_jitter [0, 1] [Fl.real 0, Fl.neginf] (1/2) [1, 0] [2, 3]).getD 0 0 =
      (1 - ([1, 0] : List ℝ).getD 0 0) * ([0, 1] : List ℝ).getD 0 0 +
        ([1, 0] : List ℝ).getD 0 0 * ((Real.sqrt (1 - (1/2) ^ 2) * ([0, 1] : List ℝ).getD 0 0 +
          (1 - Real.sqrt (1 - (1/2) ^ 2)) * weightedMean [0, 1] [Fl.real 0, Fl.neginf]) +
          (1/2) * Real.sqrt (unweightedVar [0, 1] [Fl.real 0, Fl.neginf]) * ([2, 3] : List ℝ).getD 0 0) ∧
    nessIndexProb 4 2 = (4 : ℝ) ^ (-(((2 : ℕ) : ℝ) / 2))) :=
  ⟨⟨by norm_num, by norm_num, by norm_num, by norm_num⟩,
    c4_disc_jitter_amended [0, 1] [Fl.real 0, Fl.neginf] (1/2) [1, 0] [2, 3] 0 4 2
      (by norm_num) (by norm_num) (by norm_num) (by norm_num)⟩

lemma rejuvenate_fst_td {F : Type} (ops : FilterOps F) (s : AlgState F) :
    (rejuvenate ops s).1.td = s.td := by
  simp only [rejuvenate, increaseStates]
  split_ifs <;> rfl

lemma rejuvenate_mem_snd {F : Type} (ops : FilterOps F) (s : AlgState F) :
    Event.rejuvenate ∈ (rejuvenate ops s).2 := by
  simp only [rejuvenate]
  split_ifs <;> simp

/-- C9: when the inner filter is a `KalmanFilter`, `SMC2._increase_states`
returns `self` untouched: the whole algorithm state — the filter object,
hence its particle counts, and the outer log-weights — is exactly what it
was, independently of the acceptance rate that triggered the call. -/
theorem c9_increase_states_kalman (F : Type) (ops : FilterOps F) (s : AlgState F)
    (h : ops.kind s.filter = FilterKind.kalman) :
    increaseStates ops s = s := by
  simp [increaseStates, h]

/-- Witness for C9 with a concrete Kalman-kinded filter. -/
theorem c9_increase_states_kalman_witness :
    kalmanOps.kind smc2SmallState.filter = FilterKind.kalman ∧
    increaseStates kalmanOps smc2SmallState = smc2SmallState :=
  ⟨rfl, c9_increase_states_kalman ℕ kalmanOps smc2SmallState rfl⟩

/-- C3: every `SMC2.update` on `y` appends `y` to the observation buffer
`_td`, advances the inner filter one step, adds the filter's last
incremental log-likelihood to the outer log-weights, and triggers
rejuvenation exactly when `ESS(log_W) < threshold · M` with the default
threshold `0.2` (`M = self._w_rec.shape[0]`). -/
theorem c3_smc2_update (F : Type) (ops : FilterOps F) (s : AlgState F) (y : ℝ)
    (hth : s.th = smc2DefaultThreshold)
    (hlen : (ops.lastLL (ops.step s.filter y)).length = s.w_rec.length) :
    ((smc2Update ops s y).1.td = s.td ++ [y]) ∧
    (Event.rejuvenate ∈ (smc2Update ops s y).2 ↔
      get_ess (List.zipWith fadd s.w_rec (ops.lastLL (ops.step s.filter y))) <
        smc2DefaultThreshold * (s.w_rec.length : ℝ)) ∧
    (¬ get_ess (List.zipWith fadd s.w_rec (ops.lastLL (ops.step s.filter y))) <
        smc2DefaultThreshold * (s.w_rec.length : ℝ) →
      (smc2Update ops s y).1 =
        { td := s.td ++ [y], filter := ops.step s.filter y,
          w_rec := List.zipWith fadd s.w_rec (ops.lastLL (ops.step s.filter y)),
          th := s.th }) := by
  have hlen2 : (List.zipWith fadd s.w_rec (ops.lastLL (ops.step s.filter y))).length =
      s.w_rec.length := by
    rw [List.length_zipWith, hlen, min_self]
  have hcond : (get_ess (List.zipWith fadd s.w_rec (ops.lastLL (ops.step s.filter y))) <
      s.th * ((List.zipWith fadd s.w_rec (ops.lastLL (ops.step s.filter y))).length : ℝ)) ↔
      (get_ess (List.zipWith fadd s.w_rec (ops.lastLL (ops.step s.filter y))) <
        smc2DefaultThreshold * (s.w_rec.length : ℝ)) := by
    rw [hth, hlen2]
  by_cases hc : get_ess (List.zipWith fadd s.w_rec (ops.lastLL (ops.step s.filter y))) <
      s.th * ((List.zipWith fadd s.w_rec (ops.lastLL (ops.step s.filter y))).length : ℝ)
  · refine ⟨?_, ?_, ?_⟩
    · simp only [smc2Update]
      rw [if_pos hc]
      exact rejuvenate_fst_td ops _
    · simp only [smc2Update]
      rw [if_pos hc]
      simp only [List.mem_append]
      exact ⟨fun _ => hcond.mp hc, fun _ => Or.inr (rejuvenate_mem_snd ops _)⟩
    · intro hnc
      exact absurd (hcond.mp hc) hnc
  · refine ⟨?_, ?_, ?_⟩
    · simp only [smc2Update]
      rw [if_neg hc]
    · simp only [smc2Update]
      rw [if_neg hc]
      constructor
      · intro hmem
        simp [innerStepEvents] at hmem
      · intro hlt
        exact absurd (hcond.mpr hlt) hc
    · intro _
      simp only [smc2Update]
      rw [if_neg hc]

/-- Witness for C3 at the default-threshold state with one outer
particle. -/
theorem c3_smc2_update_witness :
    (smc2SmallState.th = smc2DefaultThreshold ∧
      (natOps.lastLL (natOps.step smc2SmallState.filter 0)).length =
        smc2SmallState.w_rec.length) ∧
    (((smc2Update natOps smc2SmallState 0).1.td = smc2SmallState.td ++ [0]) ∧
    (Event.rejuvenate ∈ (smc2Update natOps smc2SmallState 0).2 ↔
      get_ess (List.zipWith fadd smc2SmallState.w_rec
          (natOps.lastLL (natOps.step smc2SmallState.filter 0))) <
        smc2DefaultThreshold * (smc2SmallState.w_rec.length : ℝ)) ∧
    (¬ get_ess (List.zipWith fadd smc2SmallState.w_rec
          (natOps.lastLL (natOps.step smc2SmallState.filter 0))) <
        smc2DefaultThreshold * (smc2SmallState.w_rec.length : ℝ) →
      (smc2Update natOps smc2SmallState 0).1 =
        { td := smc2SmallState.td ++ [0], filter := natOps.step smc2SmallState.filter 0,
          w_rec := List.zipWith fadd smc2SmallState.w_rec
            (natOps.lastLL (natOps.step smc2SmallState.filter 0)),
          th := smc2SmallState.th })) :=
  ⟨⟨rfl, rfl⟩, c3_smc2_update ℕ natOps smc2SmallState 0 rfl rfl⟩

/-- C7 (amended): within one `NESS.update` the jitter precedes the
propagation and weighting of the inner step, and the ESS check and the
recording of the incremental log-likelihood precede the outer resample;
within one `SMC2.update` the ESS check and the recorded incremental
log-likelihood precede the outer resample, but rejuvenation **follows**
propagation and weighting in the same step (equivalently, it precedes the
next step's propagation). -/
lemma nessUpdate_snd_cases {F : Type} (ops : FilterOps F) (s : AlgState F) (y : ℝ) :
    (nessUpdate ops s y).2 = [Event.jitter, Event.propagate, Event.weight,
      Event.recordLL, Event.essCheck, Event.resampleOuter] ∨
    (nessUpdate ops s y).2 = [Event.jitter, Event.propagate, Event.weight,
      Event.recordLL, Event.essCheck] := by
  simp only [nessUpdate, innerStepEvents]
  split_ifs <;> simp

lemma rejuvenate_snd_cases {F : Type} (ops : FilterOps F) (s : AlgState F) :
    (rejuvenate ops s).2 = [Event.rejuvenate, Event.resampleOuter, Event.rejMove,
      Event.rejLongfilter, Event.rejExchange] ∨
    (rejuvenate ops s).2 = [Event.rejuvenate, Event.resampleOuter, Event.rejMove,
      Event.rejLongfilter, Event.rejExchange, Event.increaseStates] := by
  simp only [rejuvenate]
  split_ifs <;> simp

lemma smc2Update_snd_cases {F : Type} (ops : FilterOps F) (s : AlgState F) (y : ℝ) :
    (smc2Update ops s y).2 = [Event.propagate, Event.weight, Event.recordLL,
      Event.essCheck] ∨
    (smc2Update ops s y).2 = [Event.propagate, Event.weight, Event.recordLL,
      Event.essCheck, Event.rejuvenate, Event.resampleOuter, Event.rejMove,
      Event.rejLongfilter, Event.rejExchange] ∨
    (smc2Update ops s y).2 = [Event.propagate, Event.weight, Event.recordLL,
      Event.essCheck, Event.rejuvenate, Event.resampleOuter, Event.rejMove,
      Event.rejLongfilter, Event.rejExchange, Event.increaseStates] := by
  simp only [smc2Update, innerStepEvents]
  split_ifs
  · rcases rejuvenate_snd_cases ops
      { td := s.td ++ [y], filter := ops.step s.filter y,
        w_rec := List.zipWith fadd s.w_rec (ops.lastLL (ops.step s.filter y)),
        th := s.th } with h2 | h2 <;> rw [h2] <;> simp
  · left
    rfl

/-- C7 (amended): within one `NESS.update` the jitter precedes the
propagation and weighting of the inner step, and the ESS check and the
recording of the incremental log-likelihood precede the outer resample;
within one `SMC2.update` the ESS check and the recorded incremental
log-likelihood precede the outer resample, but rejuvenation **follows**
propagation and weighting in the same step (equivalently, it precedes the
next step's propagation). -/
theorem c7_phase_order_amended (F : Type) (ops : FilterOps F) (s s2 : AlgState F)
    (y y2 : ℝ) :
    (precedes (nessUpdate ops s y).2 Event.jitter Event.propagate ∧
     precedes (nessUpdate ops s y).2 Event.jitter Event.weight ∧
     precedes (nessUpdate ops s y).2 Event.essCheck Event.resampleOuter ∧
     precedes (nessUpdate ops s y).2 Event.recordLL Event.resampleOuter) ∧
    (precedes (smc2Update ops s2 y2).2 Event.essCheck Event.resampleOuter ∧
     precedes (smc2Update ops s2 y2).2 Event.recordLL Event.resampleOuter ∧
     precedes (smc2Update ops s2 y2).2 Event.propagate Event.rejuvenate ∧
     precedes (smc2Update ops s2 y2).2 Event.weight Event.rejuvenate) := by
  constructor
  · rcases nessUpdate_snd_cases ops s y with h | h <;> rw [h] <;>
      exact ⟨by decide, by decide, by decide, by decide⟩
  · rcases smc2Update_snd_cases ops s2 y2 with h | h | h <;> rw [h] <;>
      exact ⟨by decide, by decide, by decide, by decide⟩

/-- C7 (counterexample): at a concrete SMC² state with six outer
particles, five of them degenerate (ESS `= 1 < 0.2·6`), the update's trace
is propagate, weight, record, ESS-check, and only **then** rejuvenate —
refuting the claim that the jitter/rejuvenate phase precedes propagation
and weighting in every update step of both outer algorithms. -/
theorem c7_phase_order_counterexample :
    ¬ (precedes (smc2Update natOps6 smc2LowEssState 0).2
        Event.rejuvenate Event.propagate ∧
       precedes (smc2Update natOps6 smc2LowEssState 0).2
        Event.rejuvenate Event.weight) := by
  have hll : natOps6.lastLL (natOps6.step smc2LowEssState.filter 0) =
      [Fl.real 0, Fl.real 0, Fl.real 0, Fl.real 0, Fl.real 0, Fl.real 0] := rfl
  have hw1 : List.zipWith fadd smc2LowEssState.w_rec
      (natOps6.lastLL (natOps6.step smc2LowEssState.filter 0)) =
      [Fl.real 0, Fl.neginf, Fl.neginf, Fl.neginf, Fl.neginf, Fl.neginf] := by
    rw [hll]
    show List.zipWith fadd
      [Fl.real 0, Fl.neginf, Fl.neginf, Fl.neginf, Fl.neginf, Fl.neginf] _ = _
    simp [List.zipWith]
  have hess : get_ess (List.zipWith fadd smc2LowEssState.w_rec
      (natOps6.lastLL (natOps6.step smc2LowEssState.filter 0))) = 1 := by
    rw [hw1]
    exact get_ess_unit 5
  have hc : get_ess (List.zipWith fadd smc2LowEssState.w_rec
      (natOps6.lastLL (natOps6.step smc2LowEssState.filter 0))) <
      smc2LowEssState.th * ((List.zipWith fadd smc2LowEssState.w_rec
        (natOps6.lastLL (natOps6.step smc2LowEssState.filter 0))).length : ℝ) := by
    rw [hess, hw1]
    norm_num [smc2LowEssState]
  have hmask : ∀ (f t : ℕ), natOps6.acceptMask f t = [] := fun _ _ => rfl
  have htr : (smc2Update natOps6 smc2LowEssState 0).2 =
      [Event.propagate, Event.weight, Event.recordLL, Event.essCheck, Event.rejuvenate,
       Event.resampleOuter, Event.rejMove, Event.rejLongfilter, Event.rejExchange] := by
    simp only [smc2Update, innerStepEvents]
    rw [if_pos hc]
    simp only [rejuvenate, hmask]
    rw [if_neg (by norm_num)]
    rfl
  rw [htr]
  decide

/-- C8: the handshake dispatch of `NESSMC2` is broken as written: its
`filter` method reads `self._smc2._ior` (and later `self._smc2._recw`),
attributes that no class in the repository ever assigns, so the very first
step of `longfilter` raises `AttributeError` instead of dispatching to
SMC². -/
theorem c8_nessmc2_attribute_error :
    nessmc2Longfilter natOps (nessmc2Init 0 6) [0] =
      Except.error PyError.attributeError := by
  simp [nessmc2Longfilter, nessmc2Filter, nessmc2Init, List.foldlM, Except.map]

end PyFilter
